import Mathlib

/-!
Verification of the client-side synchronization core of the Chat-App
repository (src/src/app/App.tsx and the CallWindow component).

Each section shallowly embeds one piece of the TypeScript source as Lean
definitions and proves the specified properties about them.  JavaScript
objects of type Record String (Array String) are embedded as association
lists, JS arrays as Lean lists, and the asynchronous handlers as explicit
step functions on state types.
-/

namespace ChatApp

/-! ## Message store (App.tsx, interface Message / loadMessages lines 493-552)

A local message record as held in the messages state.  The transient
isOptimistic flag is set by handleSendMessage (line 607) and absent
(hence false) on every row formatted from the server.  Reaction maps
(Record String (Array String) in TS) are embedded as association lists. -/

structure Message where
  id : String
  senderId : String
  text : String
  fileUrl : Option String
  fileType : Option String
  fileName : Option String
  timestamp : String
  isRead : Bool
  replyToId : Option String
  reactions : List (String × List String)
  isOptimistic : Bool
deriving Repr, DecidableEq

/-- A row of the messages table as fetched by loadMessages. -/
structure ServerRow where
  id : String
  sender_id : String
  text : String
  file_url : Option String
  file_type : Option String
  file_name : Option String
  created_at : String
  is_read : Bool
  reply_to_id : Option String
  reactions : List (String × List String)
deriving Repr, DecidableEq

/-- The row-to-message formatting of loadMessages (App.tsx lines 525-536).
The formatted object carries no isOptimistic field, so the flag reads
as false. -/
def formatMessage (m : ServerRow) : Message :=
  { id := m.id
    senderId := m.sender_id
    text := m.text
    fileUrl := m.file_url
    fileType := m.file_type
    fileName := m.file_name
    timestamp := m.created_at
    isRead := m.is_read
    replyToId := m.reply_to_id
    reactions := m.reactions
    isOptimistic := false }

/-- The setMessages reducer of loadMessages (App.tsx lines 538-545):
keep every optimistic entry whose id is not among the fetched rows and
append those after the authoritative rows. -/
def reconcile (formattedMessages : List Message) (prev : List Message) : List Message :=
  let optimistic := prev.filter (fun m => m.isOptimistic)
  let confirmedIds := formattedMessages.map (fun m => m.id)
  let remainingOptimistic := optimistic.filter (fun m => ¬ confirmedIds.contains m.id)
  formattedMessages ++ remainingOptimistic

/-- Sample optimistic message for the concrete reconcile witnesses. -/
def optW : Message :=
  { id := "x1", senderId := "u1", text := "hi", fileUrl := none, fileType := none,
    fileName := none, timestamp := "t1", isRead := false, replyToId := none,
    reactions := [], isOptimistic := true }

/-- Sample fetched row for the concrete reconcile witnesses. -/
def rowW : ServerRow :=
  { id := "s1", sender_id := "u2", text := "yo", file_url := none, file_type := none,
    file_name := none, created_at := "t0", is_read := true, reply_to_id := none,
    reactions := [] }

/-! ## Reactions (App.tsx handleReact lines 775-811)

The JS object Record String (Array String) mapping an emoji to the array
of reacting user ids is embedded as an association list. -/

abbrev Reactions := List (String × List String)

/-- Lookup (currentReactions[emoji] || []) on the JS object. -/
def getReactors (r : Reactions) (k : String) : List String :=
  match r.find? (fun p => p.1 = k) with
  | some p => p.2
  | none => []

/-- The removal pass of handleReact (lines 785-788): every emoji key loses
the acting user, and a key whose reactor array becomes empty is deleted. -/
def removeUserEverywhere (r : Reactions) (uid : String) : Reactions :=
  (r.map (fun p => (p.1, p.2.filter (fun i => i ≠ uid)))).filter (fun p => p.2 ≠ [])

/-- JS object assignment currentReactions[emoji] = v: overwrite in place
when the key exists, otherwise add the key at the end. -/
def setReactors (r : Reactions) (k : String) (v : List String) : Reactions :=
  if (r.find? (fun p => p.1 = k)).isSome then
    r.map (fun p => if p.1 = k then (k, v) else p)
  else r ++ [(k, v)]

/-- The reaction-map update of handleReact (lines 781-793): first every
existing reaction of the acting user is removed; the chosen emoji is then
added back only when the user had not already reacted with it. -/
def applyReact (r : Reactions) (uid emoji : String) : Reactions :=
  let hadThisEmoji := (getReactors r emoji).contains uid
  let removed := removeUserEverywhere r uid
  if hadThisEmoji then removed
  else setReactors removed emoji (getReactors removed emoji ++ [uid])

/-- handleReact at the message-list level (lines 775-796): look up the
message, compute the new reaction map, and write it back optimistically. -/
def handleReact (msgs : List Message) (messageId uid emoji : String) : List Message :=
  match msgs.find? (fun m => m.id = messageId) with
  | none => msgs
  | some message =>
    let currentReactions := applyReact message.reactions uid emoji
    msgs.map (fun m =>
      if m.id = messageId then { m with reactions := currentReactions } else m)

/-- Sample message used by the concrete reaction witnesses. -/
def msgW : Message :=
  { id := "m1", senderId := "u2", text := "t", fileUrl := none, fileType := none,
    fileName := none, timestamp := "ts", isRead := false, replyToId := none,
    reactions := [("eA", ["u1", "u2"])], isOptimistic := false }

/-! ## Realtime messages INSERT handler (App.tsx lines 850-881) -/

/-- The fields of a messages-table INSERT payload read by the handler. -/
structure InsertPayload where
  id : String
  conversation_id : String
  sender_id : String
  text : String
  file_url : Option String
  file_type : Option String
  file_name : Option String
  created_at : String
  is_read : Bool
  reply_to_id : Option String
  reactions : List (String × List String)
deriving Repr, DecidableEq

/-- The message object appended by the INSERT handler (lines 861-872). -/
def payloadToMessage (p : InsertPayload) : Message :=
  { id := p.id
    senderId := p.sender_id
    text := p.text
    fileUrl := p.file_url
    fileType := p.file_type
    fileName := p.file_name
    timestamp := p.created_at
    isRead := p.is_read
    replyToId := p.reply_to_id
    reactions := p.reactions
    isOptimistic := false }

/-- Observable effects of one run of the INSERT handler: the new message
list, whether playNotificationSound was called, and whether
markMessagesAsRead was invoked for the open conversation and viewer. -/
structure InsertOutcome where
  messages : List Message
  playedSound : Bool
  markedRead : Bool
deriving Repr, DecidableEq

/-- The unread-increase sound rule inside loadChats (App.tsx lines
484-489): after refetching the chat list, the notification sound plays
exactly when the freshly computed total unread count exceeds the cached
totalUnreadRef. -/
def loadChatsUnreadSound (totalUnreadRef newTotalUnread : Nat) : Bool :=
  totalUnreadRef < newTotalUnread

/-- The messages INSERT handler (lines 853-881).  currentChatId mirrors
selectedChatRef.current (its id), meId mirrors currentUserRef.current.
An insert for the open conversation is merged (skipped when the id is
already present) and marked as read; otherwise playNotificationSound runs
when a current user exists and is not the sender.  In both cases the
handler then calls loadChats(me.id) (line 880) without awaiting the
earlier markMessagesAsRead, and that refresh plays the sound per
loadChatsUnreadSound.  newTotalUnread is the unread total the refresh
fetch computes; when its unread query runs before the mark-as-read
update commits, the just-inserted row still counts towards it. -/
def onMessageInsert (prev : List Message) (currentChatId : Option String)
    (meId : Option String) (p : InsertPayload)
    (totalUnreadRef newTotalUnread : Nat) : InsertOutcome :=
  let loadChatsPlays : Bool :=
    meId.isSome && loadChatsUnreadSound totalUnreadRef newTotalUnread
  match currentChatId with
  | some chatId =>
    if p.conversation_id = chatId then
      { messages := if prev.any (fun m => m.id = p.id) then prev
          else prev ++ [payloadToMessage p]
        playedSound := loadChatsPlays
        markedRead := meId.isSome }
    else
      { messages := prev
        playedSound := (match meId with
          | some me => p.sender_id != me
          | none => false) || loadChatsPlays
        markedRead := false }
  | none =>
    { messages := prev
      playedSound := (match meId with
        | some me => p.sender_id != me
        | none => false) || loadChatsPlays
      markedRead := false }

/-- Sample INSERT payload for a background conversation. -/
def payloadW : InsertPayload :=
  { id := "n1", conversation_id := "c2", sender_id := "u9", text := "ping",
    file_url := none, file_type := none, file_name := none, created_at := "t9",
    is_read := false, reply_to_id := none, reactions := [] }

/-- Sample INSERT payload addressed to the open conversation c1 and sent
by another user. -/
def payloadOpenW : InsertPayload :=
  { id := "n2", conversation_id := "c1", sender_id := "u9", text := "ping",
    file_url := none, file_type := none, file_name := none, created_at := "t9",
    is_read := false, reply_to_id := none, reactions := [] }

/-! ## Polling fallback (App.tsx lines 1088-1116)

The 1-second interval sweep.  A timer tick is a fire event; it starts a
sweep only when isPollingRef is clear (lines 1092-1093).  A sweep ends in
the finally block (line 1112) clearing the flag; on the way it either ran
to completion (consecutiveErrorsRef reset at line 1098 and no later
throw), threw before the reset (loadChats failed: counter incremented at
line 1109), or threw after the reset (loadMessages or fetchRequests
failed: counter reset then incremented).  The ghost field active counts
sweeps in flight. -/

inductive SweepOutcome where
  | ok
  | errBeforeReset
  | errAfterReset
deriving Repr, DecidableEq

inductive PollEvent where
  | fire
  | finish (r : SweepOutcome)
deriving Repr, DecidableEq

structure PollState where
  isPolling : Bool
  consecutiveErrors : Nat
  active : Nat
deriving Repr, DecidableEq

def pollInit : PollState := { isPolling := false, consecutiveErrors := 0, active := 0 }

def pollStep (s : PollState) : PollEvent → PollState
  | .fire =>
    if s.isPolling then s
    else { s with isPolling := true, active := s.active + 1 }
  | .finish r =>
    if s.active = 0 then s
    else
      { isPolling := false
        active := s.active - 1
        consecutiveErrors :=
          match r with
          | .ok => 0
          | .errBeforeReset => s.consecutiveErrors + 1
          | .errAfterReset => 1 }

def pollRun (events : List PollEvent) : PollState := events.foldl pollStep pollInit

def pollInv (s : PollState) : Prop := s.active = if s.isPolling then 1 else 0

/-! ## Accept chat request (App.tsx handleAcceptRequest lines 1172-1248)

The handler issues three sequential writes: set the request status to
accepted FIRST (step 1, lines 1178-1186), insert a conversations row
(step 2, lines 1189-1198), insert both participant rows (step 3, lines
1201-1211).  Each await may throw; the catch block only shows a toast, so
writes that already succeeded are kept.  The fail argument injects which
step (if any) throws. -/

inductive ReqStatus where
  | pending
  | accepted
  | rejected
deriving Repr, DecidableEq

structure ChatRequest where
  id : String
  sender_id : String
  receiver_id : String
  status : ReqStatus
deriving Repr, DecidableEq

structure DB where
  requests : List ChatRequest
  conversations : List String
  participants : List (String × String)
deriving Repr, DecidableEq

inductive AcceptFail where
  | atUpdate
  | atConvInsert
  | atPartInsert
deriving Repr, DecidableEq

/-- Step 1: update chat_requests set status = accepted where id = requestId. -/
def updateRequestAccepted (db : DB) (requestId : String) : DB :=
  { db with requests := db.requests.map (fun r =>
      if r.id = requestId then { r with status := .accepted } else r) }

/-- Step 2: insert a conversations row. -/
def insertConversation (db : DB) (convId : String) : DB :=
  { db with conversations := db.conversations ++ [convId] }

/-- Step 3: insert both participant rows, current user first (line 1204). -/
def insertParticipants (db : DB) (convId meId senderId : String) : DB :=
  { db with participants := db.participants ++ [(convId, meId), (convId, senderId)] }

/-- handleAcceptRequest over the embedded database.  A thrown step aborts
the rest; earlier writes stay (there is no rollback in the catch block). -/
def handleAcceptRequest (db : DB) (requestId senderId meId newConvId : String)
    (fail : Option AcceptFail) : DB :=
  match fail with
  | some .atUpdate => db
  | some .atConvInsert => updateRequestAccepted db requestId
  | some .atPartInsert =>
      insertConversation (updateRequestAccepted db requestId) newConvId
  | none =>
      insertParticipants
        (insertConversation (updateRequestAccepted db requestId) newConvId)
        newConvId meId senderId

/-- loadChats step 1 (lines 337-354): the conversation ids a user belongs
to, read from conversation_participants rows with that user_id. -/
def userConversations (db : DB) (uid : String) : List String :=
  (db.participants.filter (fun pr => pr.2 = uid)).map (fun pr => pr.1)

/-- Database before acceptance in the concrete scenarios: one pending
request from A to B, no conversations, no participants. -/
def acceptDbW : DB :=
  { requests := [{ id := "r1", sender_id := "A", receiver_id := "B", status := .pending }],
    conversations := [],
    participants := [] }

/-! ## ICE candidate buffering (App.tsx lines 949-960; CallWindow lines 1685-1699)

The ice-candidate broadcast handler appends each received candidate to
the call state's iceCandidates list.  The CallWindow effect keyed on that
list runs after each append and, only when the peer connection already
has a remote description, applies the whole accumulated list in order via
addIceCandidate.  Setting the remote description itself (the answer
effect) applies no candidates.  passes is the ghost log of the candidate
lists handed to addIceCandidate, one entry per effect run that applied. -/

structure IceState where
  buffer : List String
  descSet : Bool
  passes : List (List String)
deriving Repr, DecidableEq

inductive IceEvent where
  | recv (c : String)
  | setDesc
deriving Repr, DecidableEq

def iceInit : IceState := { buffer := [], descSet := false, passes := [] }

def iceStep (s : IceState) : IceEvent → IceState
  | .recv c =>
    { s with
      buffer := s.buffer ++ [c]
      passes := if s.descSet then s.passes ++ [s.buffer ++ [c]] else s.passes }
  | .setDesc => { s with descSet := true }

def iceRun (events : List IceEvent) : IceState := events.foldl iceStep iceInit

def receivedCandidates (events : List IceEvent) : List String :=
  events.filterMap (fun e => match e with | .recv c => some c | .setDesc => none)

/-! ## Call termination and resource release (App.tsx lines 961-969 and
1302-1314; CallWindow lines 1579-1594 and 1679-1682)

CallWindow.cleanup stops every local media track and closes and discards
the peer connection; it runs from handleEnd (local hang-up and error
paths) only.  The cleanup function returned by the peer-connection effect
has an empty body, so unmounting CallWindow on its own releases nothing.
The call-ended broadcast handler merely clears the activeCall state
(unmounting CallWindow) and stops the ringtone. -/

structure CallResources where
  activeCall : Bool
  tracksStopped : Bool
  pcClosed : Bool
deriving Repr, DecidableEq

/-- CallWindow.cleanup (lines 1579-1589). -/
def cleanup (s : CallResources) : CallResources :=
  { s with tracksStopped := true, pcClosed := true }

/-- The effect teardown returned at lines 1679-1682: empty body. -/
def unmountCleanup (s : CallResources) : CallResources := s

/-- Receipt of the peer's call-ended broadcast (lines 961-969): clear the
active call; the resulting CallWindow unmount runs only unmountCleanup. -/
def onRemoteCallEnded (s : CallResources) : CallResources :=
  if s.activeCall then unmountCleanup { s with activeCall := false } else s

/-- Local hang-up: CallWindow.handleEnd (lines 1591-1594) runs cleanup,
then onEndCall = App.handleEndCall (lines 1302-1314) clears the call. -/
def localHangUp (s : CallResources) : CallResources :=
  if s.activeCall then { cleanup s with activeCall := false } else s

/-! ## Conversation list ordering (App.tsx loadChats lines 479-491,
handleSelectChat line 566)

loadChats concatenates 1:1 chats and group chats and sorts them with
(a, b) => a.partnerName.localeCompare(b.partnerName).  The locale order
is abstracted as a boolean relation le assumed total and transitive; the
JS engine sort is modelled as insertion sort (a sorted permutation). -/

structure Chat where
  id : String
  partnerId : String
  partnerName : String
  partnerAvatar : Option String
  lastMessage : String
  lastMessageTime : String
  unreadCount : Nat
  isGroup : Bool
deriving Repr, DecidableEq

def insertByName (le : String → String → Bool) (c : Chat) : List Chat → List Chat
  | [] => [c]
  | d :: ds =>
    if le c.partnerName d.partnerName then c :: d :: ds
    else d :: insertByName le c ds

def sortChats (le : String → String → Bool) (l : List Chat) : List Chat :=
  l.foldr (insertByName le) []

/-- The chat-list combine of loadChats (lines 479-482). -/
def loadChatsCombine (le : String → String → Bool)
    (regularChats groupChats : List Chat) : List Chat :=
  sortChats le (regularChats ++ groupChats)

/-- The local chat-list update of handleSelectChat (line 566): clear the
selected chat's unread count in place. -/
def handleSelectChatUpdate (chatId : String) (l : List Chat) : List Chat :=
  l.map (fun c => if c.id = chatId then { c with unreadCount := 0 } else c)

/-- Length order on strings: a concrete total and transitive comparator
standing in for localeCompare in the witness. -/
def leW (a b : String) : Bool := a.length ≤ b.length

def chatW1 : Chat :=
  { id := "cv1", partnerId := "p1", partnerName := "Zoe", partnerAvatar := none,
    lastMessage := "hi", lastMessageTime := "t5", unreadCount := 3, isGroup := false }

def chatW2 : Chat :=
  { id := "g1", partnerId := "g1", partnerName := "Al", partnerAvatar := none,
    lastMessage := "yo", lastMessageTime := "t6", unreadCount := 0, isGroup := true }

/-! ## Theorems -/

theorem formatMessage_not_optimistic (r : ServerRow) :
    (formatMessage r).isOptimistic = false := rfl

theorem contains_eq_true_iff_mem (l : List String) (a : String) :
    l.contains a = true ↔ a ∈ l := by
  simp [List.contains_iff_exists_mem_beq, eq_comm]

theorem mem_reconcile_of_optimistic {prev : List Message} {m : Message}
    (fm : List Message) (hm : m ∈ prev) (hopt : m.isOptimistic = true)
    (hnot : ¬ m.id ∈ fm.map (fun x => x.id)) :
    m ∈ reconcile fm prev := by
  unfold reconcile
  simp only [List.mem_append]
  right
  simp only [List.mem_filter]
  refine ⟨⟨hm, hopt⟩, ?_⟩
  simp only [decide_eq_true_eq]
  intro hc
  exact hnot ((contains_eq_true_iff_mem _ _).mp hc)

/-- C1: an optimistic entry with identifier X survives reconciliation while
X is not among the fetched rows; once a fetched row carries X, the
reconciled list holds exactly one entry with identifier X. -/
theorem optimistic_survival_and_dedup (rows : List ServerRow) (prev : List Message)
    (m : Message) (hm : m ∈ prev) (hopt : m.isOptimistic = true) :
    (¬ m.id ∈ rows.map (fun r => r.id) →
      m ∈ reconcile (rows.map formatMessage) prev) ∧
    ((rows.map (fun r => r.id)).Nodup → m.id ∈ rows.map (fun r => r.id) →
      (reconcile (rows.map formatMessage) prev).countP (fun e => e.id = m.id) = 1) := by
  constructor
  · intro hnot
    apply mem_reconcile_of_optimistic _ hm hopt
    simpa [List.map_map, Function.comp] using hnot
  · intro hnodup hmem
    unfold reconcile
    rw [List.countP_append]
    have h1 : (List.map formatMessage rows).countP (fun e => e.id = m.id) = 1 := by
      rw [List.countP_map]
      have hcount : rows.countP ((fun e => decide (e.id = m.id)) ∘ formatMessage)
          = (rows.map (fun r => r.id)).count m.id := by
        rw [List.count_eq_countP, List.countP_map]
        apply List.countP_congr
        intro r _
        simp [Function.comp, formatMessage]
      rw [hcount]
      exact List.count_eq_one_of_mem hnodup hmem
    have h2 : (((prev.filter (fun m => m.isOptimistic)).filter
        (fun x => ¬ ((rows.map formatMessage).map (fun m => m.id)).contains x.id)).countP
        (fun e => e.id = m.id)) = 0 := by
      rw [List.countP_eq_zero]
      intro a ha
      rw [List.mem_filter] at ha
      have hnc := ha.2
      simp only [decide_eq_true_eq] at hnc
      simp only [decide_eq_true_eq]
      intro heq
      apply hnc
      rw [contains_eq_true_iff_mem, heq, List.map_map]
      simpa [Function.comp] using hmem
    omega

/-- Concrete instance of optimistic_survival_and_dedup. -/
theorem optimistic_survival_and_dedup_witness :
    optW ∈ reconcile ([rowW].map formatMessage) [optW] := by
  exact (optimistic_survival_and_dedup [rowW] [optW] optW (by simp) rfl).1 (by decide)

theorem filter_optimistic_format (rows : List ServerRow) :
    (rows.map formatMessage).filter (fun m => m.isOptimistic) = [] := by
  rw [List.filter_eq_nil_iff]
  intro a ha
  rw [List.mem_map] at ha
  obtain ⟨r, _, rfl⟩ := ha
  simp [formatMessage]

/-- C2: applying the loadMessages merge reducer twice with the same fetched
row set equals applying it once, and (for duplicate-free fetched ids and
duplicate-free optimistic ids) the merged list has no duplicate ids. -/
theorem reconcile_idempotent (rows : List ServerRow) (prev : List Message) :
    reconcile (rows.map formatMessage) (reconcile (rows.map formatMessage) prev)
      = reconcile (rows.map formatMessage) prev ∧
    ((rows.map (fun r => r.id)).Nodup →
      ((prev.filter (fun m => m.isOptimistic)).map (fun m => m.id)).Nodup →
      ((reconcile (rows.map formatMessage) prev).map (fun m => m.id)).Nodup) := by
  constructor
  · show reconcile _ (_ ++ _) = _
    unfold reconcile
    dsimp only
    rw [List.filter_append, filter_optimistic_format, List.nil_append]
    have hR : ((prev.filter (fun m => m.isOptimistic)).filter
        (fun x => ¬ ((rows.map formatMessage).map (fun m => m.id)).contains x.id)).filter
        (fun m => m.isOptimistic)
        = (prev.filter (fun m => m.isOptimistic)).filter
            (fun x => ¬ ((rows.map formatMessage).map (fun m => m.id)).contains x.id) := by
      rw [List.filter_eq_self]
      intro a ha
      rw [List.mem_filter, List.mem_filter] at ha
      exact ha.1.2
    rw [hR]
    congr 1
    rw [List.filter_eq_self]
    intro a ha
    rw [List.mem_filter] at ha
    exact ha.2
  · intro hnodup hopt
    unfold reconcile
    rw [List.map_append, List.nodup_append]
    have hFids : (rows.map formatMessage).map (fun m => m.id)
        = rows.map (fun r => r.id) := by
      rw [List.map_map]; rfl
    refine ⟨?_, ?_, ?_⟩
    · rw [hFids]; exact hnodup
    · have hsub : List.Sublist
          ((prev.filter (fun m => m.isOptimistic)).filter
            (fun x => ¬ ((rows.map formatMessage).map (fun m => m.id)).contains x.id))
          (prev.filter (fun m => m.isOptimistic)) := List.filter_sublist _
      exact (hsub.map (fun m => m.id)).nodup hopt
    · intro a ha1 ha2
      rw [List.mem_map] at ha2
      obtain ⟨x, hx, rfl⟩ := ha2
      rw [List.mem_filter] at hx
      have hnc := hx.2
      simp only [decide_eq_true_eq] at hnc
      exact hnc ((contains_eq_true_iff_mem _ _).mpr ha1)

/-- Concrete instance of reconcile_idempotent: duplicate-free ids on a
two-element merge. -/
theorem reconcile_idempotent_witness :
    ((reconcile ([rowW].map formatMessage) [optW]).map (fun m => m.id)).Nodup := by
  exact (reconcile_idempotent [rowW] [optW]).2 (by decide) (by decide)

theorem mem_removeUserEverywhere {r : Reactions} {uid : String} {p : String × List String}
    (hp : p ∈ removeUserEverywhere r uid) : ¬ uid ∈ p.2 ∧ p.2 ≠ [] := by
  unfold removeUserEverywhere at hp
  rw [List.mem_filter] at hp
  obtain ⟨hm, hne⟩ := hp
  rw [List.mem_map] at hm
  obtain ⟨q, _, rfl⟩ := hm
  refine ⟨by simp, by simpa using hne⟩

theorem getReactors_removeUserEverywhere (r : Reactions) (uid k : String) :
    ¬ uid ∈ getReactors (removeUserEverywhere r uid) k := by
  unfold getReactors
  cases hf : (removeUserEverywhere r uid).find? (fun p => p.1 = k) with
  | none => simp
  | some p => exact (mem_removeUserEverywhere (List.mem_of_find?_eq_some hf)).1

theorem find?_map_overwrite (r : Reactions) (k : String) (v : List String)
    (h : (r.find? (fun p => p.1 = k)).isSome = true) :
    (r.map (fun p => if p.1 = k then (k, v) else p)).find? (fun p => p.1 = k)
      = some (k, v) := by
  induction r with
  | nil => simp at h
  | cons p t ih =>
    by_cases hk : p.1 = k
    · simp [hk]
    · rw [List.map_cons, if_neg hk, List.find?_cons_of_neg _ (by simpa using hk)]
      apply ih
      rw [List.find?_cons_of_neg _ (by simpa using hk)] at h
      exact h

theorem find?_map_overwrite_ne (r : Reactions) (k k2 : String) (v : List String)
    (hne : k2 ≠ k) :
    (r.map (fun p => if p.1 = k then (k, v) else p)).find? (fun p => p.1 = k2)
      = r.find? (fun p => p.1 = k2) := by
  induction r with
  | nil => rfl
  | cons p t ih =>
    by_cases hk : p.1 = k
    · rw [List.map_cons, if_pos hk,
        List.find?_cons_of_neg _ (by simpa using (Ne.symm hne : k ≠ k2)),
        List.find?_cons_of_neg _ (by simp [hk, Ne.symm hne]), ih]
    · rw [List.map_cons, if_neg hk]
      by_cases hp : p.1 = k2
      · rw [List.find?_cons_of_pos _ (by simpa using hp),
          List.find?_cons_of_pos _ (by simpa using hp)]
      · rw [List.find?_cons_of_neg _ (by simpa using hp),
          List.find?_cons_of_neg _ (by simpa using hp), ih]

theorem getReactors_setReactors_same (r : Reactions) (k : String) (v : List String) :
    getReactors (setReactors r k v) k = v := by
  unfold setReactors getReactors
  by_cases h : (r.find? (fun p => p.1 = k)).isSome
  · rw [if_pos h, find?_map_overwrite r k v h]
  · rw [if_neg h, List.find?_append]
    have hnone : r.find? (fun p => p.1 = k) = none := by
      cases hf : r.find? (fun p => p.1 = k) with
      | none => rfl
      | some p => rw [hf] at h; simp at h
    rw [hnone]
    simp

theorem getReactors_setReactors_ne (r : Reactions) (k k2 : String) (v : List String)
    (hne : k2 ≠ k) :
    getReactors (setReactors r k v) k2 = getReactors r k2 := by
  unfold setReactors getReactors
  by_cases h : (r.find? (fun p => p.1 = k)).isSome
  · rw [if_pos h, find?_map_overwrite_ne r k k2 v hne]
  · rw [if_neg h, List.find?_append]
    have : List.find? (fun p => p.1 = k2) [(k, v)] = none := by
      simp [Ne.symm hne]
    rw [this]
    cases r.find? (fun p => p.1 = k2) <;> rfl

theorem applyReact_not_had (r : Reactions) (uid B : String)
    (hB : ¬ uid ∈ getReactors r B) :
    applyReact r uid B
      = setReactors (removeUserEverywhere r uid) B
          (getReactors (removeUserEverywhere r uid) B ++ [uid]) := by
  unfold applyReact
  dsimp only
  rw [if_neg]
  intro hc
  exact hB ((contains_eq_true_iff_mem _ _).mp hc)

theorem applyReact_switch (r : Reactions) (uid A B : String)
    (hA : uid ∈ getReactors r A) (hB : ¬ uid ∈ getReactors r B) (hne : A ≠ B) :
    ¬ uid ∈ getReactors (applyReact r uid B) A ∧
    uid ∈ getReactors (applyReact r uid B) B ∧
    ∀ k, uid ∈ getReactors (applyReact r uid B) k → k = B := by
  rw [applyReact_not_had r uid B hB]
  refine ⟨?_, ?_, ?_⟩
  · rw [getReactors_setReactors_ne _ _ _ _ hne]
    exact getReactors_removeUserEverywhere r uid A
  · rw [getReactors_setReactors_same]
    simp
  · intro k hk
    by_contra hkB
    rw [getReactors_setReactors_ne _ _ _ _ hkB] at hk
    exact getReactors_removeUserEverywhere r uid k hk

/-- C5: a user who previously reacted with emoji A and now calls handleReact
with a different emoji B is removed from the reactor set of A and added to
the set of B, and appears under no emoji other than B afterwards. -/
theorem handleReact_exclusivity (msgs : List Message) (messageId uid A B : String)
    (msg : Message)
    (hfind : msgs.find? (fun m => m.id = messageId) = some msg)
    (hA : uid ∈ getReactors msg.reactions A)
    (hB : ¬ uid ∈ getReactors msg.reactions B)
    (hne : A ≠ B) :
    ∀ m ∈ handleReact msgs messageId uid B, m.id = messageId →
      (¬ uid ∈ getReactors m.reactions A ∧
       uid ∈ getReactors m.reactions B ∧
       ∀ k, uid ∈ getReactors m.reactions k → k = B) := by
  intro m hm hid
  unfold handleReact at hm
  rw [hfind] at hm
  dsimp only at hm
  rw [List.mem_map] at hm
  obtain ⟨x, hx, rfl⟩ := hm
  by_cases hxid : x.id = messageId
  · rw [if_pos (by simpa using hxid)]
    exact applyReact_switch msg.reactions uid A B hA hB hne
  · rw [if_neg (by simpa using hxid)] at hid ⊢
    exact absurd hid hxid

theorem applyReact_had (r : Reactions) (uid emoji : String)
    (h : uid ∈ getReactors r emoji) :
    applyReact r uid emoji = removeUserEverywhere r uid := by
  unfold applyReact
  dsimp only
  rw [if_pos ((contains_eq_true_iff_mem _ _).mpr h)]

/-- C9: calling handleReact with an emoji the user already reacted with
withdraws the user from every emoji of that message, and no emoji key with
an empty reactor set remains. -/
theorem handleReact_toggle_off (msgs : List Message) (messageId uid emoji : String)
    (msg : Message)
    (hfind : msgs.find? (fun m => m.id = messageId) = some msg)
    (hhad : uid ∈ getReactors msg.reactions emoji) :
    ∀ m ∈ handleReact msgs messageId uid emoji, m.id = messageId →
      ((∀ k, ¬ uid ∈ getReactors m.reactions k) ∧
       (∀ p ∈ m.reactions, p.2 ≠ [])) := by
  intro m hm hid
  unfold handleReact at hm
  rw [hfind] at hm
  dsimp only at hm
  rw [List.mem_map] at hm
  obtain ⟨x, hx, rfl⟩ := hm
  by_cases hxid : x.id = messageId
  · rw [if_pos (by simpa using hxid)]
    show (∀ k, ¬ uid ∈ getReactors (applyReact msg.reactions uid emoji) k) ∧ _
    rw [applyReact_had msg.reactions uid emoji hhad]
    refine ⟨fun k => getReactors_removeUserEverywhere msg.reactions uid k, ?_⟩
    intro p hp
    exact (mem_removeUserEverywhere hp).2
  · rw [if_neg (by simpa using hxid)] at hid ⊢
    exact absurd hid hxid

/-- Concrete instance of handleReact_exclusivity. -/
theorem handleReact_exclusivity_witness :
    ¬ "u1" ∈ getReactors [("eA", ["u2"]), ("eB", ["u1"])] "eA" ∧
    "u1" ∈ getReactors [("eA", ["u2"]), ("eB", ["u1"])] "eB" := by
  have h := handleReact_exclusivity [msgW] "m1" "u1" "eA" "eB" msgW (by decide)
      (by decide) (by decide) (by decide)
      { msgW with reactions := [("eA", ["u2"]), ("eB", ["u1"])] } (by decide) (by decide)
  exact ⟨h.1, h.2.1⟩

/-- Concrete instance of handleReact_toggle_off. -/
theorem handleReact_toggle_off_witness :
    ¬ "u1" ∈ getReactors [("eA", ["u2"])] "eA" ∧ ("u2" :: ([] : List String)) ≠ [] := by
  have h := handleReact_toggle_off [msgW] "m1" "u1" "eA" msgW (by decide) (by decide)
      { msgW with reactions := [("eA", ["u2"])] } (by decide) (by decide)
  exact ⟨h.1 "eA", h.2 ("eA", ["u2"]) (by decide)⟩

/-- C6 counterexample: an insert into the CURRENTLY OPEN conversation from
another user does play the notification sound when the chat-list refresh
issued by the same handler (line 880) computes an unread total (1) above
the cached one (0) — its unread query raced the un-awaited mark-as-read
update and still saw the new row.  This falsifies the claimed
no-sound-for-the-open-conversation policy at a concrete input. -/
theorem notification_sound_open_counterexample :
    payloadOpenW.conversation_id = "c1" ∧
    payloadOpenW.sender_id ≠ "me" ∧
    (onMessageInsert [] (some "c1") (some "me") payloadOpenW 0 1).playedSound = true := by
  decide

/-- C6 as amended: the handler's direct sound branch fires only for an
insert that is not for the open conversation with a sender other than the
local user; an open-conversation insert is merged with duplicate ids
skipped and marked as read, but it plays a sound exactly when the
chat-list refresh the handler also issues computes an unread total above
the cached one (possible when the refresh races the mark-as-read update).
In full: a sound plays iff a user is logged in and either the insert is a
background one from another user, or the refreshed unread total exceeds
the cached total. -/
theorem notification_sound_policy (prev : List Message)
    (currentChatId meId : Option String) (p : InsertPayload)
    (totalUnreadRef newTotalUnread : Nat) :
    ((onMessageInsert prev currentChatId meId p totalUnreadRef newTotalUnread).playedSound
        = true ↔
      ((currentChatId ≠ some p.conversation_id ∧
          ∃ me, meId = some me ∧ p.sender_id ≠ me) ∨
        (meId.isSome = true ∧ totalUnreadRef < newTotalUnread))) ∧
    (currentChatId = some p.conversation_id →
      ((onMessageInsert prev currentChatId meId p totalUnreadRef newTotalUnread).playedSound
          = true ↔ (meId.isSome = true ∧ totalUnreadRef < newTotalUnread)) ∧
      (onMessageInsert prev currentChatId meId p totalUnreadRef newTotalUnread).messages
        = (if prev.any (fun m => m.id = p.id) then prev
            else prev ++ [payloadToMessage p]) ∧
      (onMessageInsert prev currentChatId meId p totalUnreadRef newTotalUnread).markedRead
        = meId.isSome) := by
  cases currentChatId with
  | none =>
    cases meId with
    | none => simp [onMessageInsert, loadChatsUnreadSound]
    | some me => simp [onMessageInsert, loadChatsUnreadSound]
  | some chatId =>
    by_cases hc : p.conversation_id = chatId
    · subst hc
      cases meId with
      | none => simp [onMessageInsert, loadChatsUnreadSound]
      | some me => simp [onMessageInsert, loadChatsUnreadSound]
    · have hne : some chatId ≠ some p.conversation_id := by
        intro h
        injection h with h2
        exact hc h2.symm
      cases meId with
      | none =>
        constructor
        · simp [onMessageInsert, loadChatsUnreadSound, if_neg hc]
        · intro h
          exact absurd h hne
      | some me =>
        constructor
        · simp only [onMessageInsert, loadChatsUnreadSound, if_neg hc]
          simp only [Bool.or_eq_true, Bool.and_eq_true, Option.isSome_some,
            bne_iff_ne, decide_eq_true_eq]
          constructor
          · intro hs
            rcases hs with hs | hs
            · exact Or.inl ⟨hne, me, rfl, hs⟩
            · exact Or.inr ⟨trivial, hs.2⟩
          · intro hs
            rcases hs with ⟨-, me2, hme2, hsend⟩ | ⟨-, hlt⟩
            · injection hme2 with hme2
              subst hme2
              exact Or.inl hsend
            · exact Or.inr ⟨trivial, hlt⟩
        · intro h
          exact absurd h hne

/-- Concrete instance of notification_sound_policy: a background insert
from another user plays the sound; an open-conversation insert whose
refresh sees no unread increase plays none. -/
theorem notification_sound_policy_witness :
    (onMessageInsert [] (some "c1") (some "me") payloadW 0 0).playedSound = true ∧
    (onMessageInsert [] (some "c1") (some "me") payloadOpenW 0 0).playedSound = false := by
  constructor
  · exact (notification_sound_policy [] (some "c1") (some "me") payloadW 0 0).1.mpr
      (Or.inl ⟨by decide, "me", rfl, by decide⟩)
  · have h := ((notification_sound_policy [] (some "c1") (some "me") payloadOpenW 0 0).2
      rfl).1
    cases hps : (onMessageInsert [] (some "c1") (some "me") payloadOpenW 0 0).playedSound
    · rfl
    · exact absurd (h.mp hps).2 (by omega)

theorem pollStep_inv {s : PollState} (h : pollInv s) (e : PollEvent) :
    pollInv (pollStep s e) := by
  cases e with
  | fire =>
    unfold pollInv at h ⊢
    by_cases hp : s.isPolling = true
    · simp only [pollStep, if_pos hp]
      rw [hp] at h
      simpa using h
    · have hp2 : s.isPolling = false := by simpa using hp
      rw [hp2] at h
      simp only [Bool.false_eq_true, if_false] at h
      simp only [pollStep, if_neg hp]
      simp [h]
  | finish r =>
    unfold pollInv at h ⊢
    by_cases ha : s.active = 0
    · simp only [pollStep, if_pos ha]
      exact h
    · simp only [pollStep, if_neg ha]
      have hp : s.isPolling = true := by
        cases hpp : s.isPolling
        · rw [hpp] at h
          simp only [Bool.false_eq_true, if_false] at h
          exact absurd h ha
        · rfl
      rw [hp] at h
      simp only [if_true] at h
      simp [h]

theorem pollRun_inv (events : List PollEvent) : pollInv (pollRun events) := by
  unfold pollRun
  have : ∀ s, pollInv s → pollInv (events.foldl pollStep s) := by
    induction events with
    | nil => intro s hs; exact hs
    | cons e t ih => intro s hs; exact ih _ (pollStep_inv hs e)
  exact this pollInit (by simp [pollInv, pollInit])

/-- C3: after any sequence of timer and completion events at most one sweep
is in flight; a fire while a sweep runs changes nothing (the tick is
skipped, not queued); a sweep that throws before the counter reset bumps
the consecutive-failure counter and clears the in-flight flag so the next
tick runs again; a successful sweep resets the counter to zero. -/
theorem poll_reentrancy (events : List PollEvent) :
    (pollRun events).active ≤ 1 ∧
    (∀ s : PollState, s.isPolling = true → pollStep s .fire = s) ∧
    (∀ s : PollState, s.active = 1 →
      (pollStep s (.finish .errBeforeReset)).consecutiveErrors
          = s.consecutiveErrors + 1 ∧
      (pollStep s (.finish .errBeforeReset)).isPolling = false) ∧
    (∀ s : PollState, s.active = 1 →
      (pollStep s (.finish .ok)).consecutiveErrors = 0) := by
  refine ⟨?_, ?_, ?_, ?_⟩
  · have h := pollRun_inv events
    unfold pollInv at h
    rw [h]
    by_cases hp : (pollRun events).isPolling <;> simp [hp]
  · intro s hs
    simp only [pollStep, if_pos hs]
  · intro s hs
    have hne : ¬ s.active = 0 := by omega
    simp only [pollStep, if_neg hne]
    simp
  · intro s hs
    have hne : ¬ s.active = 0 := by omega
    simp only [pollStep, if_neg hne]

/-- Concrete instance of poll_reentrancy: a fire during a long sweep is
skipped and the error counter behaves as described. -/
theorem poll_reentrancy_witness :
    (pollRun [.fire, .fire, .finish .errBeforeReset, .fire, .finish .ok]).active ≤ 1 ∧
    pollStep { isPolling := true, consecutiveErrors := 2, active := 1 } .fire
      = { isPolling := true, consecutiveErrors := 2, active := 1 } ∧
    (pollStep { isPolling := true, consecutiveErrors := 2, active := 1 }
      (.finish .errBeforeReset)).consecutiveErrors = 3 := by
  have h := poll_reentrancy [.fire, .fire, .finish .errBeforeReset, .fire, .finish .ok]
  refine ⟨h.1, h.2.1 _ rfl, ?_⟩
  rw [(h.2.2.1 { isPolling := true, consecutiveErrors := 2, active := 1 } rfl).1]

/-- C4 counterexample: if step 2 (conversation insert) throws after step 1
succeeded, the request is left accepted while no conversation and no
participant rows exist — the partial state the claim rules out. -/
theorem accept_request_not_atomic :
    (handleAcceptRequest acceptDbW "r1" "A" "B" "c1" (some .atConvInsert)).requests
      = [{ id := "r1", sender_id := "A", receiver_id := "B", status := .accepted }] ∧
    (handleAcceptRequest acceptDbW "r1" "A" "B" "c1" (some .atConvInsert)).conversations
      = [] ∧
    (handleAcceptRequest acceptDbW "r1" "A" "B" "c1" (some .atConvInsert)).participants
      = [] := by
  decide

/-- C4 as amended: when all three writes succeed, acceptance sets the
request status to accepted, creates exactly one conversation row, creates
exactly two participant rows (the accepting user B and the sender A), and
the conversation shows in B's next conversation-list fetch. -/
theorem handleAcceptRequest_success (db : DB) (requestId senderId meId newConvId : String)
    (hconv : ¬ newConvId ∈ db.conversations)
    (hpart : ∀ pr ∈ db.participants, pr.1 ≠ newConvId) :
    (∀ r ∈ (handleAcceptRequest db requestId senderId meId newConvId none).requests,
      r.id = requestId → r.status = .accepted) ∧
    (handleAcceptRequest db requestId senderId meId newConvId none).conversations.count
        newConvId = 1 ∧
    ((handleAcceptRequest db requestId senderId meId newConvId none).participants.filter
        (fun pr => pr.1 = newConvId)).map (fun pr => pr.2) = [meId, senderId] ∧
    newConvId ∈ userConversations
        (handleAcceptRequest db requestId senderId meId newConvId none) meId := by
  refine ⟨?_, ?_, ?_, ?_⟩
  · intro r hr hid
    simp only [handleAcceptRequest, insertParticipants, insertConversation,
      updateRequestAccepted, List.mem_map] at hr
    obtain ⟨x, hx, rfl⟩ := hr
    by_cases hxid : x.id = requestId
    · rw [if_pos hxid]
    · rw [if_neg hxid] at hid ⊢
      exact absurd hid hxid
  · simp only [handleAcceptRequest, insertParticipants, insertConversation,
      updateRequestAccepted]
    rw [List.count_append]
    have h0 : db.conversations.count newConvId = 0 := by
      rw [List.count_eq_zero]
      exact hconv
    rw [h0]
    simp
  · simp only [handleAcceptRequest, insertParticipants, insertConversation,
      updateRequestAccepted]
    rw [List.filter_append]
    have h0 : db.participants.filter (fun pr => pr.1 = newConvId) = [] := by
      rw [List.filter_eq_nil_iff]
      intro pr hpr
      simpa using hpart pr hpr
    rw [h0, List.nil_append]
    simp
  · unfold userConversations
    simp only [handleAcceptRequest, insertParticipants, insertConversation,
      updateRequestAccepted]
    rw [List.mem_map]
    refine ⟨(newConvId, meId), ?_, rfl⟩
    rw [List.mem_filter]
    exact ⟨by simp, by simp⟩

/-- Concrete instance of handleAcceptRequest_success. -/
theorem handleAcceptRequest_success_witness :
    (handleAcceptRequest acceptDbW "r1" "A" "B" "c1" none).conversations.count "c1" = 1 ∧
    "c1" ∈ userConversations (handleAcceptRequest acceptDbW "r1" "A" "B" "c1" none) "B" := by
  have h := handleAcceptRequest_success acceptDbW "r1" "A" "B" "c1"
    (by decide) (by intro pr hpr; simp [acceptDbW] at hpr)
  exact ⟨h.2.1, h.2.2.2⟩

theorem ice_fold (events : List IceEvent) : ∀ s : IceState,
    ((events.foldl iceStep s).buffer = s.buffer ++ receivedCandidates events) ∧
    (s.descSet = false → ¬ IceEvent.setDesc ∈ events →
        (events.foldl iceStep s).passes = s.passes) ∧
    ((∀ p ∈ s.passes, ∃ t, s.buffer ++ receivedCandidates events = p ++ t) →
        ∀ p ∈ (events.foldl iceStep s).passes, ∃ t,
          s.buffer ++ receivedCandidates events = p ++ t) := by
  induction events with
  | nil =>
    intro s
    refine ⟨by simp [receivedCandidates], fun _ _ => rfl, fun h => by
      simpa [receivedCandidates] using h⟩
  | cons e t ih =>
    intro s
    cases e with
    | recv c =>
      have hR : receivedCandidates (.recv c :: t) = c :: receivedCandidates t := rfl
      have hbufeq : s.buffer ++ receivedCandidates (.recv c :: t)
          = (s.buffer ++ [c]) ++ receivedCandidates t := by
        rw [hR, List.append_assoc]
        rfl
      have h := ih (iceStep s (.recv c))
      have hb : (iceStep s (.recv c)).buffer = s.buffer ++ [c] := rfl
      refine ⟨?_, ?_, ?_⟩
      · show (t.foldl iceStep (iceStep s (.recv c))).buffer = _
        rw [h.1, hb, hbufeq]
      · intro hds hmem
        show (t.foldl iceStep (iceStep s (.recv c))).passes = _
        have hds2 : (iceStep s (.recv c)).descSet = false := hds
        have hps : (iceStep s (.recv c)).passes = s.passes := by
          simp only [iceStep, hds]
          rw [if_neg (by simp [hds])]
        rw [h.2.1 hds2 (fun hm => hmem (List.mem_cons_of_mem _ hm)), hps]
      · intro hyp
        show ∀ p ∈ (t.foldl iceStep (iceStep s (.recv c))).passes, _
        intro p hp
        rw [hbufeq]
        refine h.2.2 ?_ p hp
        intro q hq
        rw [hb]
        by_cases hds : s.descSet = true
        · simp only [iceStep, if_pos hds] at hq
          rw [List.mem_append] at hq
          cases hq with
          | inl hq1 =>
            obtain ⟨t2, ht2⟩ := hyp q hq1
            rw [hbufeq] at ht2
            exact ⟨t2, ht2⟩
          | inr hq2 =>
            rw [List.mem_singleton] at hq2
            subst hq2
            exact ⟨receivedCandidates t, rfl⟩
        · simp only [iceStep] at hq
          rw [if_neg hds] at hq
          obtain ⟨t2, ht2⟩ := hyp q hq
          rw [hbufeq] at ht2
          exact ⟨t2, ht2⟩
    | setDesc =>
      have hR : receivedCandidates (.setDesc :: t) = receivedCandidates t := rfl
      have h := ih (iceStep s .setDesc)
      refine ⟨?_, ?_, ?_⟩
      · show (t.foldl iceStep (iceStep s .setDesc)).buffer = _
        rw [h.1, hR]
        rfl
      · intro _ hmem
        exact absurd (List.mem_cons_self _ _) hmem
      · intro hyp
        show ∀ p ∈ (t.foldl iceStep (iceStep s .setDesc)).passes, _
        intro p hp
        rw [hR]
        exact h.2.2 (fun q hq => by
          obtain ⟨t2, ht2⟩ := hyp q hq
          rw [hR] at ht2
          exact ⟨t2, ht2⟩) p hp

/-- C7: candidates accumulate in the call state in receipt order; no
candidate is applied to the peer connection while the remote description
is unset; every application pass hands over a prefix of the receipt-order
candidate sequence (so candidates are applied in receipt order); and once
the description is set, the arrival of a candidate applies the entire
accumulated buffer. -/
theorem ice_candidate_buffering (events : List IceEvent) :
    (iceRun events).buffer = receivedCandidates events ∧
    (¬ IceEvent.setDesc ∈ events → (iceRun events).passes = []) ∧
    (∀ p ∈ (iceRun events).passes, ∃ t, receivedCandidates events = p ++ t) ∧
    (∀ (s : IceState) (c : String), s.descSet = true →
      (iceStep s (.recv c)).passes = s.passes ++ [s.buffer ++ [c]]) := by
  have h := ice_fold events iceInit
  refine ⟨?_, ?_, ?_, ?_⟩
  · show (events.foldl iceStep iceInit).buffer = _
    rw [h.1]
    rfl
  · intro hn
    exact h.2.1 rfl hn
  · intro p hp
    have h3 := h.2.2 (by intro q hq; exact absurd hq (by simp [iceInit])) p hp
    simpa [iceInit] using h3
  · intro s c hds
    simp only [iceStep, if_pos hds]

/-- Concrete instance of ice_candidate_buffering: a candidate received
before the description plus one received after are applied together, in
receipt order, and nothing is applied when no description ever arrives. -/
theorem ice_candidate_buffering_witness :
    (∃ t, receivedCandidates [.recv "c1", .setDesc, .recv "c2"]
        = ["c1", "c2"] ++ t) ∧
    (iceRun [IceEvent.recv "c1"]).passes = [] := by
  constructor
  · exact (ice_candidate_buffering [.recv "c1", .setDesc, .recv "c2"]).2.2.1
      ["c1", "c2"] (by decide)
  · exact (ice_candidate_buffering [IceEvent.recv "c1"]).2.1 (by decide)

/-- C8 evidence: on receipt of the peer's call-ended signal the call is
cleared but no local track is stopped and the peer connection stays open,
while a local hang-up releases both — the two termination paths are not
symmetric as the claim states. -/
theorem call_ended_resource_release :
    onRemoteCallEnded { activeCall := true, tracksStopped := false, pcClosed := false }
      = { activeCall := false, tracksStopped := false, pcClosed := false } ∧
    localHangUp { activeCall := true, tracksStopped := false, pcClosed := false }
      = { activeCall := false, tracksStopped := true, pcClosed := true } := by
  decide

theorem mem_insertByName {le : String → String → Bool} {c x : Chat} :
    ∀ {l : List Chat}, x ∈ insertByName le c l → x = c ∨ x ∈ l := by
  intro l
  induction l with
  | nil =>
    intro hx
    rw [insertByName, List.mem_singleton] at hx
    exact Or.inl hx
  | cons d ds ih =>
    intro hx
    rw [insertByName] at hx
    by_cases hle : le c.partnerName d.partnerName = true
    · rw [if_pos hle] at hx
      rcases List.mem_cons.mp hx with h | h
      · exact Or.inl h
      · exact Or.inr h
    · rw [if_neg hle] at hx
      rcases List.mem_cons.mp hx with h | h
      · exact Or.inr (h ▸ List.mem_cons_self d ds)
      · rcases ih h with h2 | h2
        · exact Or.inl h2
        · exact Or.inr (List.mem_cons_of_mem d h2)

theorem pairwise_insertByName {le : String → String → Bool}
    (htot : ∀ a b, le a b = true ∨ le b a = true)
    (htrans : ∀ a b c, le a b = true → le b c = true → le a c = true)
    (c : Chat) :
    ∀ {l : List Chat},
      List.Pairwise (fun a b => le a.partnerName b.partnerName = true) l →
      List.Pairwise (fun a b => le a.partnerName b.partnerName = true)
        (insertByName le c l) := by
  intro l
  induction l with
  | nil =>
    intro _
    rw [insertByName]
    exact List.pairwise_singleton _ _
  | cons d ds ih =>
    intro hp
    rw [List.pairwise_cons] at hp
    rw [insertByName]
    by_cases hle : le c.partnerName d.partnerName = true
    · rw [if_pos hle, List.pairwise_cons]
      refine ⟨?_, List.pairwise_cons.mpr hp⟩
      intro x hx
      rcases List.mem_cons.mp hx with h | h
      · rw [h]
        exact hle
      · exact htrans _ _ _ hle (hp.1 x h)
    · rw [if_neg hle, List.pairwise_cons]
      refine ⟨?_, ih hp.2⟩
      intro x hx
      rcases mem_insertByName hx with h | h
      · rw [h]
        rcases htot c.partnerName d.partnerName with h2 | h2
        · exact absurd h2 hle
        · exact h2
      · exact hp.1 x h

theorem pairwise_sortChats {le : String → String → Bool}
    (htot : ∀ a b, le a b = true ∨ le b a = true)
    (htrans : ∀ a b c, le a b = true → le b c = true → le a c = true)
    (l : List Chat) :
    List.Pairwise (fun a b => le a.partnerName b.partnerName = true)
      (sortChats le l) := by
  induction l with
  | nil => exact List.Pairwise.nil
  | cons d ds ih => exact pairwise_insertByName htot htrans d ih

theorem perm_insertByName (le : String → String → Bool) (c : Chat) :
    ∀ (l : List Chat), List.Perm (insertByName le c l) (c :: l) := by
  intro l
  induction l with
  | nil => rw [insertByName]
  | cons d ds ih =>
    rw [insertByName]
    by_cases hle : le c.partnerName d.partnerName = true
    · rw [if_pos hle]
    · rw [if_neg hle]
      exact (ih.cons d).trans (List.Perm.swap c d ds)

theorem perm_sortChats (le : String → String → Bool) (l : List Chat) :
    List.Perm (sortChats le l) l := by
  induction l with
  | nil => rfl
  | cons d ds ih =>
    exact (perm_insertByName le d (sortChats le ds)).trans (ih.cons d)

theorem handleSelectChatUpdate_names (chatId : String) (l : List Chat) :
    (handleSelectChatUpdate chatId l).map (fun c => c.partnerName)
      = l.map (fun c => c.partnerName) := by
  unfold handleSelectChatUpdate
  rw [List.map_map]
  apply List.map_congr_left
  intro c _
  by_cases h : c.id = chatId
  · simp [Function.comp, h]
  · simp [Function.comp, h]

theorem pairwise_handleSelectChatUpdate {le : String → String → Bool}
    (chatId : String) {l : List Chat}
    (hp : List.Pairwise (fun a b => le a.partnerName b.partnerName = true) l) :
    List.Pairwise (fun a b => le a.partnerName b.partnerName = true)
      (handleSelectChatUpdate chatId l) := by
  unfold handleSelectChatUpdate
  refine List.Pairwise.map _ ?_ hp
  intro a b hab
  by_cases ha : a.id = chatId <;> by_cases hb : b.id = chatId <;>
    simp [ha, hb, hab]

/-- C10: the chat list produced by loadChats is the regular and group
chats sorted by the (total, transitive) locale comparison of display
names — a sorted permutation, so recency plays no part — and selecting a
chat rewrites unread counts in place, preserving both the name sequence
and sortedness. -/
theorem conversation_list_ordering (le : String → String → Bool)
    (htot : ∀ a b, le a b = true ∨ le b a = true)
    (htrans : ∀ a b c, le a b = true → le b c = true → le a c = true)
    (regularChats groupChats : List Chat) (chatId : String) :
    List.Pairwise (fun a b => le a.partnerName b.partnerName = true)
      (loadChatsCombine le regularChats groupChats) ∧
    List.Perm (loadChatsCombine le regularChats groupChats)
      (regularChats ++ groupChats) ∧
    (handleSelectChatUpdate chatId (loadChatsCombine le regularChats groupChats)).map
        (fun c => c.partnerName)
      = (loadChatsCombine le regularChats groupChats).map (fun c => c.partnerName) ∧
    List.Pairwise (fun a b => le a.partnerName b.partnerName = true)
      (handleSelectChatUpdate chatId (loadChatsCombine le regularChats groupChats)) := by
  refine ⟨pairwise_sortChats htot htrans _, perm_sortChats le _,
    handleSelectChatUpdate_names chatId _, ?_⟩
  exact pairwise_handleSelectChatUpdate chatId (pairwise_sortChats htot htrans _)

/-- Concrete instance of conversation_list_ordering. -/
theorem conversation_list_ordering_witness :
    List.Pairwise (fun a b => leW a.partnerName b.partnerName = true)
      (loadChatsCombine leW [chatW1] [chatW2]) := by
  exact (conversation_list_ordering leW
    (fun a b => by simp only [leW, decide_eq_true_eq]; omega)
    (fun a b c h1 h2 => by
      simp only [leW, decide_eq_true_eq] at h1 h2 ⊢
      omega)
    [chatW1] [chatW2] "cv1").1

end ChatApp
